import Mathlib

/-
Verification of the cache/acquisition subsystem of visor-datos-abiertos.

Shallow embedding of the Go sources:
  backend/internal/dataset/download_manager.go  (DownloadManager, query builders)
  backend/internal/dataset/query.go             (buildFilterQuery)
  backend/internal/dataset/loader.go            (createIndex / createIndexes)
  backend/internal/cache/manager.go             (LRUCache, DiskCache, GenerateKey)
  backend/internal/handlers/api.go              (UUID guards)

Go machine details modeled explicitly: float64 progress/percentile values are
modeled as rationals; Go `interface{}` filter values are modeled by `GoVal`;
Go map iteration (which has unspecified order) is modeled by passing the
iteration sequence as an association list; the filesystem is modeled as a
partial map from path to file content.
-/

namespace Visor

/-! ## Download manager (download_manager.go) -/

/-- Status constants of download_manager.go. -/
inductive DownloadStatus where
  | pending
  | downloading
  | processing
  | ready
  | failed
deriving DecidableEq, Repr

/-- The `DownloadJob` struct. `float64` fields are modeled as `ℚ`,
`time.Time` as `Nat`, and the `error` field by its message. -/
structure DownloadJob where
  uuid : String
  status : DownloadStatus
  progress : ℚ := 0
  errorMsg : String := ""
  startTime : Nat := 0
  endTime : Nat := 0
  fileSize : Int := 0
  downloaded : Int := 0
  message : String := ""
deriving DecidableEq, Repr

/-- The `DownloadManager`'s `jobs` map (the mutex serializes access, so the
manager is modeled as a sequentially-updated map). -/
structure DMState where
  jobs : String → Option DownloadJob

/-- `StartDownload`: if a job for the uuid exists it is returned unchanged;
otherwise a Pending job is inserted and the background pipeline is launched
(`go dm.downloadInBackground(uuid)`), reported by the `Bool` component. -/
def startDownload (st : DMState) (now : Nat) (uuid : String) :
    DownloadJob × DMState × Bool :=
  match st.jobs uuid with
  | some job => (job, st, false)
  | none =>
    let job : DownloadJob :=
      { uuid := uuid, status := .pending, startTime := now,
        message := "Iniciando descarga..." }
    (job, ⟨fun u => if u = uuid then some job else st.jobs u⟩, true)

/-- Run a sequence of `StartDownload` calls, collecting the uuids for which a
background pipeline run was actually launched. -/
def runStarts (st : DMState) : List (Nat × String) → DMState × List String
  | [] => (st, [])
  | (now, uuid) :: rest =>
    let r := startDownload st now uuid
    let tail := runStarts r.2.1 rest
    (tail.1, (if r.2.2 then [uuid] else []) ++ tail.2)

/-- Number of pipeline launches for `uuid` over a call sequence. -/
def launchCount (st : DMState) (calls : List (Nat × String)) (uuid : String) : Nat :=
  ((runStarts st calls).2).count uuid

/-! ## Disk cache (cache/manager.go, DiskCache) -/

/-- Filesystem model: path to file content (`none` = no file). -/
def FS : Type := String → Option String

/-- Point update of the filesystem model. -/
def fsUpd (fs : FS) (p : String) (v : Option String) : FS :=
  fun q => if q = p then v else fs q

/-- Destination path `filepath.Join(dc.dir, uuid+".duckdb")` (directories are
taken without a trailing slash, so Join appends one separator). -/
def diskDst (dir uuid : String) : String := dir ++ "/" ++ uuid ++ ".duckdb"

/-- `DiskCache.Set`: if the destination already exists, return nil without
touching anything; otherwise `os.Rename(srcPath, dstPath)` (a move, which
fails when the source does not exist). -/
def diskSet (dir uuid srcPath : String) (fs : FS) : Except String FS :=
  let dstPath := diskDst dir uuid
  match fs dstPath with
  | some _ => .ok fs
  | none =>
    match fs srcPath with
    | some f => .ok (fsUpd (fsUpd fs srcPath none) dstPath (some f))
    | none => .error "rename: no such file or directory"

/-! ## Memory LRU cache (cache/lru.go part of cache/manager.go sources) -/

/-- An `entry` of the LRU list. -/
structure LRUEntry where
  key : String
  value : String
  size : Int
deriving DecidableEq, Repr

/-- `LRUCache`: the recency list models `evictList` with head = front = most
recently used (the `items` map is the set of keys of the list). -/
structure LRUCache where
  capacity : Nat
  size : Int
  maxSize : Int
  evictList : List LRUEntry
deriving DecidableEq, Repr

/-- `NewLRUCache`: capacity fixed at 10 ("Top 10 datasets"). -/
def NewLRUCache (maxSize : Int) : LRUCache :=
  { capacity := 10, size := 0, maxSize := maxSize, evictList := [] }

/-- The eviction loop `for Len() > capacity || size > maxSize { evictOldest }`
of `Set`, on the reversed recency list (head = oldest); each pass removes the
oldest entry and subtracts its size. (On an empty list with `size > maxSize`
the Go loop would spin forever since `evictOldest` is a no-op; that state is
unreachable — `size` is the sum of the entry sizes — and the model stops.) -/
def evictRev (cap : Nat) (maxB : Int) : List LRUEntry → Int → List LRUEntry × Int
  | [], s => ([], s)
  | e :: rest, s =>
    if (e :: rest).length > cap ∨ s > maxB then evictRev cap maxB rest (s - e.size)
    else (e :: rest, s)

/-- `LRUCache.Set`: an existing key is moved to the front and updated in
place (no eviction, the Go code returns); a new key is pushed to the front
and the eviction loop runs. -/
def LRUCache.set (c : LRUCache) (key value : String) (sz : Int) : LRUCache :=
  match c.evictList.find? (fun e => e.key == key) with
  | some old =>
    { c with
        evictList :=
          { key := key, value := value, size := sz }
            :: c.evictList.eraseP (fun e => e.key == key),
        size := c.size - old.size + sz }
  | none =>
    let l := ({ key := key, value := value, size := sz } : LRUEntry) :: c.evictList
    let r := evictRev c.capacity c.maxSize l.reverse (c.size + sz)
    { c with evictList := r.1.reverse, size := r.2 }

/-- `LRUCache.Get`: a hit moves the entry to the front. -/
def LRUCache.get (c : LRUCache) (key : String) : Option String × LRUCache :=
  match c.evictList.find? (fun e => e.key == key) with
  | some e =>
    (some e.value,
      { c with evictList := e :: c.evictList.eraseP (fun x => x.key == key) })
  | none => (none, c)

/-- Apply a sequence of `Set` calls (key, value, size) to a fresh cache. -/
def applyOps (maxB : Int) (ops : List (String × String × Int)) : LRUCache :=
  ops.foldl (fun c op => c.set op.1 op.2.1 op.2.2) (NewLRUCache maxB)

/-- Total bytes of the entries on the recency list. -/
def sumSizes (l : List LRUEntry) : Int := (l.map (fun e => e.size)).sum

/-- The cache's byte counter agrees with its entries, and entry sizes are
nonnegative (they come from `os.Stat` file sizes). -/
def SizeAccounted (c : LRUCache) : Prop :=
  c.size = sumSizes c.evictList ∧ ∀ e ∈ c.evictList, 0 ≤ e.size

/-! ## HTTP handler guards (handlers/api.go) -/

/-- `strings.TrimPrefix`, modeled on the character lists underlying the
strings (paths are ASCII, so rune counts match Go's byte counts). -/
def trimPref (s pre : String) : String :=
  if pre.toList.isPrefixOf s.toList then ⟨s.toList.drop pre.toList.length⟩ else s

/-- Outcome of a handler's front matter: either an early `http.Error`
response, or control proceeding past the guard with the extracted uuid. -/
inductive GuardResult where
  | reject (code : Nat) (msg : String)
  | proceed (uuid : String)
deriving DecidableEq, Repr

/-- Guard of `APIHandler.GetFilteredData`: method check, then
`uuid := TrimPrefix(path, "/api/data/")`; reject 400 when `uuid != ""`. -/
def getFilteredDataGuard (method path : String) : GuardResult :=
  if method ≠ "POST" then .reject 405 "Método no permitido"
  else
    let uuid := trimPref path "/api/data/"
    if uuid ≠ "" then .reject 400 "UUID requerido" else .proceed uuid

/-- Guard of `APIHandler.GetAggregatedData` (same shape, prefix `/api/aggregated/`). -/
def getAggregatedDataGuard (method path : String) : GuardResult :=
  if method ≠ "POST" then .reject 405 "Método no permitido"
  else
    let uuid := trimPref path "/api/aggregated/"
    if uuid ≠ "" then .reject 400 "UUID requerido" else .proceed uuid

/-- Guard of `APIHandler.GetMetadata` (no method check, prefix `/api/metadata/`). -/
def getMetadataGuard (path : String) : GuardResult :=
  let uuid := trimPref path "/api/metadata/"
  if uuid ≠ "" then .reject 400 "UUID requerido" else .proceed uuid

/-! ## Query builders (query.go and download_manager.go analytics) -/

/-- Go `interface{}` filter values as decoded from JSON: nil, bool, number
(modeled exactly instead of float64), string, or `[]interface{}`. -/
inductive GoVal where
  | vnull
  | vbool (b : Bool)
  | vnum (n : Int)
  | vstr (s : String)
  | vlist (l : List GoVal)

/-- The sentinel test `value == nil || value == "" || value == "Todas"`
(Go interface equality: the untyped string literals only match string
values). -/
def isSentinelV : GoVal → Bool
  | .vnull => true
  | .vstr s => s = "" || s = "Todas"
  | _ => false

/-- A filter iteration sequence: the key/value pairs of
`map[string]interface{}` in the (unspecified) order Go's `range` visits
them. -/
abbrev Filters : Type := List (String × GoVal)

/-- Loop body of `buildFilterQuery`: skip sentinels, arrays become
parameterized `IN (...)` (placeholders joined with `","`), scalars a
parameterized equality; the value(s) are appended to args. -/
def filterStep (acc : String × List GoVal) (kv : String × GoVal) : String × List GoVal :=
  let key := kv.1
  if isSentinelV kv.2 then acc
  else
    let safeKey := "\"" ++ key ++ "\""
    match kv.2 with
    | .vlist arr =>
      if arr.isEmpty then acc
      else
        (acc.1 ++ " AND " ++ safeKey ++ " IN ("
            ++ String.intercalate "," (arr.map (fun _ => "?")) ++ ")",
          acc.2 ++ arr)
    | v => (acc.1 ++ " AND " ++ safeKey ++ " = ?", acc.2 ++ [v])

/-- The filter loop of `buildFilterQuery`, from the base query. -/
def filterWhere (filters : Filters) : String × List GoVal :=
  filters.foldl filterStep ("SELECT * FROM data WHERE 1=1", [])

/-- `Manager.buildFilterQuery` (query.go): filter loop, then `LIMIT` and
`OFFSET` formatted into the text when positive. -/
def buildFilterQuery (filters : Filters) (limit offset : Int) : String × List GoVal :=
  let r := filterWhere filters
  let q := if limit > 0 then r.1 ++ " LIMIT " ++ toString limit else r.1
  let q := if offset > 0 then q ++ " OFFSET " ++ toString offset else q
  (q, r.2)

/-- `strings.ToLower`, modeled on rune lists (the names compared in this
code base are ASCII, so ASCII-range lowering is faithful). -/
def lcChar (c : Char) : Char :=
  if 'A' ≤ c ∧ c ≤ 'Z' then Char.ofNat (c.toNat + 32) else c

/-- Lowercase a string (see `lcChar`). -/
def lowerStr (s : String) : String := ⟨s.toList.map lcChar⟩

/-- `strings.Contains s sub` on character lists. -/
def listHasPre : List Char → List Char → Bool
  | [], _ => true
  | _ :: _, [] => false
  | p :: ps, c :: cs => p = c && listHasPre ps cs

/-- Substring occurrence test used for `strings.Contains`. -/
def listHasSub (pat : List Char) : List Char → Bool
  | [] => pat.isEmpty
  | c :: rest => listHasPre pat (c :: rest) || listHasSub pat rest

/-- `strings.Contains (s, sub)`. -/
def containsSub (s sub : String) : Bool := listHasSub sub.toList s.toList

/-- `AggregationParams` (filters modeled as an iteration sequence). -/
structure AggParams where
  filters : Filters := []
  agg : String := ""
  varAgg : String := ""
  groupBy : List String := []
  orderBy : String := ""
  orderDir : String := ""
  limit : Int := 0
  dateFormat : String := ""

/-- `Manager.formatDateColumn`: non-date columns come back as quoted
identifiers; date columns are wrapped per the requested granularity. -/
def formatDateColumn (col format : String) : String :=
  let colLower := lowerStr col
  if ¬(containsSub colLower "fecha" || containsSub colLower "date") then
    "\"" ++ col ++ "\""
  else
    let f := lowerStr format
    let safeCol := "\"" ++ col ++ "\""
    if f = "year" || f = "año" then "YEAR(" ++ safeCol ++ ") as " ++ col
    else if f = "month" || f = "mes" then "DATE_TRUNC('month', " ++ safeCol ++ ") as " ++ col
    else if f = "week" || f = "semana" then "DATE_TRUNC('week', " ++ safeCol ++ ") as " ++ col
    else if f = "day" || f = "dia" then "DATE_TRUNC('day', " ++ safeCol ++ ") as " ++ col
    else if f = "quarter" || f = "trimestre" then "DATE_TRUNC('quarter', " ++ safeCol ++ ") as " ++ col
    else if f = "yearmonth" || f = "año-mes" then "STRFTIME(" ++ safeCol ++ ", '%Y-%m') as " ++ col
    else safeCol

/-- `Manager.buildAggregationFunction`: switch over the lowered aggregate
name, falling back to `COUNT(*)` when the target column is empty or the
function unrecognized. -/
def buildAggregationFunction (agg varAgg : String) : String :=
  let a := lowerStr agg
  if a = "count" then "COUNT(*)"
  else if a = "sum" then (if varAgg = "" then "COUNT(*)" else "SUM(\"" ++ varAgg ++ "\")")
  else if a = "avg" || a = "mean" then (if varAgg = "" then "COUNT(*)" else "AVG(\"" ++ varAgg ++ "\")")
  else if a = "min" then (if varAgg = "" then "COUNT(*)" else "MIN(\"" ++ varAgg ++ "\")")
  else if a = "max" then (if varAgg = "" then "COUNT(*)" else "MAX(\"" ++ varAgg ++ "\")")
  else if a = "median" then (if varAgg = "" then "COUNT(*)" else "MEDIAN(\"" ++ varAgg ++ "\")")
  else if a = "stddev" then (if varAgg = "" then "COUNT(*)" else "STDDEV(\"" ++ varAgg ++ "\")")
  else "COUNT(*)"

/-- Loop body of `buildAggregationQuery`'s WHERE construction: collects the
predicate strings (joined later with `" AND "`) and the bound args;
array placeholders are joined with `", "`. -/
def aggStep (acc : List String × List GoVal) (kv : String × GoVal) : List String × List GoVal :=
  let key := kv.1
  if isSentinelV kv.2 then acc
  else
    let safekey := "\"" ++ key ++ "\""
    match kv.2 with
    | .vlist arr =>
      if arr.isEmpty then acc
      else
        (acc.1 ++ [safekey ++ " IN ("
            ++ String.intercalate ", " (arr.map (fun _ => "?")) ++ ")"],
          acc.2 ++ arr)
    | v => (acc.1 ++ [safekey ++ " = ?"], acc.2 ++ [v])

/-- The WHERE fold of `buildAggregationQuery`. -/
def aggWhere (filters : Filters) : List String × List GoVal :=
  filters.foldl aggStep ([], [])

/-- The ORDER BY clause of `buildAggregationQuery`: explicit column (ASC only
when OrderDir is non-empty and lowercases to "asc", else DESC), otherwise
positional `1` (the first group-by column, ascending by SQL default),
otherwise `total DESC`. -/
def orderByClause (p : AggParams) : String :=
  if p.orderBy ≠ "" then
    " ORDER BY \"" ++ p.orderBy ++ "\""
      ++ (if p.orderDir ≠ "" && lowerStr p.orderDir = "asc" then " ASC" else " DESC")
  else if ¬p.groupBy.isEmpty then " ORDER BY 1"
  else " ORDER BY total DESC"

/-- `Manager.buildAggregationQuery` up to its GROUP BY clause: SELECT of the
formatted group-by columns plus one aggregate aliased `total`, WHERE from the
filters (degenerating to `1=1` when every entry is skipped), positional GROUP
BY. -/
def aggQueryCore (p : AggParams) : String :=
  let selectCols := p.groupBy.map (fun c => formatDateColumn c p.dateFormat)
  let sel := "SELECT "
      ++ (if ¬selectCols.isEmpty then String.intercalate ", " selectCols ++ ", " else "")
      ++ buildAggregationFunction p.agg p.varAgg ++ " as total"
  let fromQ := sel ++ " FROM data"
  let whereQ :=
    if ¬p.filters.isEmpty then
      fromQ ++ " WHERE "
        ++ (if ¬(aggWhere p.filters).1.isEmpty then String.intercalate " AND " (aggWhere p.filters).1 else "1=1")
    else fromQ
  if ¬p.groupBy.isEmpty then
    whereQ ++ " GROUP BY "
      ++ String.intercalate ", " ((List.range p.groupBy.length).map (fun i => toString (i + 1)))
  else whereQ

/-- `Manager.buildAggregationQuery` (download_manager.go): the core clauses,
then ORDER BY, then LIMIT when positive; args are the WHERE bindings. -/
def buildAggregationQuery (p : AggParams) : String × List GoVal :=
  let orderQ := aggQueryCore p ++ orderByClause p
  (if p.limit > 0 then orderQ ++ " LIMIT " ++ toString p.limit else orderQ,
    (aggWhere p.filters).2)

/-- The shared WHERE-clause builder of `GetTopValues`, `GetCrossTab`,
`GetPercentiles` and `GetCorrelation`: starts at `WHERE 1=1` and appends a
parameterized equality per non-sentinel filter. -/
def simpleWhere (filters : Filters) : String × List GoVal :=
  filters.foldl
    (fun acc kv =>
      if isSentinelV kv.2 then acc
      else (acc.1 ++ " AND \"" ++ kv.1 ++ "\" = ?", acc.2 ++ [kv.2]))
    ("WHERE 1=1", [])

/-- Left-pad a string with zeros to the given length. -/
def padZeros (n : Nat) (s : String) : String :=
  ⟨List.replicate (n - s.toList.length) '0' ++ s.toList⟩

/-- Go's `%f` formatting (6 digits after the point) for the nonnegative
percentile constants, which are exactly representable (the Go code passes
float64 values like 0.25, 0.5; for those, truncating at six decimals agrees
with Go's rounding). -/
def formatF (q : ℚ) : String :=
  let scaled : Int := q.num * 1000000 / (q.den : Int)
  toString (scaled / 1000000) ++ "." ++ padZeros 6 (toString (scaled % 1000000))

/-- One iteration of `GetPercentiles`: the query text interpolates the
percentile constant via `%f` and the column as a quoted identifier; only the
filter values are bound as args. -/
def percentileQuery (p : ℚ) (column : String) (filters : Filters) : String × List GoVal :=
  let w := simpleWhere filters
  ("\n\t\t\tSELECT PERCENTILE_CONT(" ++ formatF p ++ ") WITHIN GROUP (ORDER BY \""
      ++ column ++ "\")\n\t\t\tFROM data\n\t\t\t" ++ w.1 ++ "\n\t\t",
    w.2)

/-! ## Index creation (loader.go) -/

/-- The double-quote character, extracted from a string literal. -/
def dq : Char := "\"".toList.getD 0 'x'

/-- Number of double-quote characters in a string. -/
def countDq (s : String) : Nat := (s.toList.filter (fun c => c = dq)).length

/-- `createIndex`'s column-name sanitizer (`strings.Map`). -/
def safeIdxName (columnName : String) : String :=
  ⟨columnName.toList.map (fun r =>
    if ('a' ≤ r && r ≤ 'z') || ('A' ≤ r && r ≤ 'Z') || ('0' ≤ r && r ≤ '9') || r = '_'
    then r else '_')⟩

/-- The SQL statement built by `Manager.createIndex` (loader.go): note the
opening double quote before the column name has no closing counterpart. -/
def createIndexQuery (columnName : String) : String :=
  "CREATE INDEX IF NOT EXISTS idx_" ++ safeIdxName columnName
    ++ " ON data (\"" ++ columnName ++ ")"

/-- The category keywords of `createIndexes`. -/
def idxCategories : List String :=
  ["entidad", "estado", "municipio", "tipo", "categoria", "clasificacion"]

/-- The column-selection heuristic of `createIndexes`: date-like names or any
category keyword as a case-insensitive substring. -/
def indexSelected (colName : String) : Bool :=
  let colLower := lowerStr colName
  containsSub colLower "fecha" || containsSub colLower "date"
    || idxCategories.any (fun cat => containsSub colLower cat)

/-! ## GetStats scan (download_manager.go, GetStats) -/

/-- The single aggregate row the engine returns for `GetStats`'s query.
`COUNT(*)` and `COUNT(DISTINCT col)` are integers and never NULL; the other
aggregates are NULL (`none`) over an empty input — the engine's
MIN/MAX/AVG/MEDIAN/STDDEV/PERCENTILE_CONT yield NULL for zero rows. Numeric
values are modeled as rationals. -/
structure EngineStatsRow where
  count : Int
  distinctCount : Int
  minV : Option ℚ
  maxV : Option ℚ
  meanV : Option ℚ
  medianV : Option ℚ
  stddevV : Option ℚ
  q25V : Option ℚ
  q75V : Option ℚ
deriving DecidableEq, Repr

/-- The engine's aggregate row over an empty (after filtering) result set. -/
def EmptyResultRow (r : EngineStatsRow) : Prop :=
  r.count = 0 ∧ r.distinctCount = 0 ∧ r.minV = none ∧ r.maxV = none
    ∧ r.meanV = none ∧ r.medianV = none ∧ r.stddevV = none
    ∧ r.q25V = none ∧ r.q75V = none

instance (r : EngineStatsRow) : Decidable (EmptyResultRow r) := by
  unfold EmptyResultRow
  infer_instance

/-- The stats map `GetStats` assembles on success (its keys in the Go map
literal's order), with `iqr` derived as `q75 - q25`. -/
structure StatsOut where
  count : Int
  distinctCount : Int
  minS : ℚ
  maxS : ℚ
  mean : ℚ
  median : ℚ
  stddev : ℚ
  q25 : ℚ
  q75 : ℚ
  iqr : ℚ
deriving DecidableEq, Repr

/-- `GetStats`'s scan-and-assemble step: `row.Scan` copies the columns into
int64/float64 destinations and errors on a NULL aggregate (database/sql
cannot convert NULL into float64), in which case GetStats returns the error;
on success it returns the stats map with the derived `iqr`. -/
def getStatsScan (r : EngineStatsRow) : Except String StatsOut :=
  match r.minV, r.maxV, r.meanV, r.medianV, r.stddevV, r.q25V, r.q75V with
  | some mn, some mx, some me, some md, some sd, some q25, some q75 =>
    .ok { count := r.count, distinctCount := r.distinctCount, minS := mn, maxS := mx,
          mean := me, median := md, stddev := sd, q25 := q25, q75 := q75,
          iqr := q75 - q25 }
  | _, _, _, _, _, _, _ =>
    .error "sql: Scan error: converting NULL to float64 is unsupported"

/-! ## Cache key generation (cache/manager.go, GenerateKey) -/

/-- JSON-marshalable values (the `interface{}` handed to `json.Marshal`):
the handlers pass `map[string]interface{}` literals whose values are strings,
numbers, structs and nested maps; maps are modeled by `jobj` carrying their
field sequence in an arbitrary order, numbers exactly. -/
inductive Json where
  | jnull
  | jbool (b : Bool)
  | jnum (n : Int)
  | jstr (s : String)
  | jarr (l : List Json)
  | jobj (fields : List (String × Json))

/-- Order on rendered fields: by key, as Go's `encoding/json` sorts map keys. -/
def rkeyLe (a b : String × String) : Prop := a.1 ≤ b.1

/-- Strict variant of `rkeyLe`. -/
def rkeyLt (a b : String × String) : Prop := a.1 < b.1

instance : DecidableRel rkeyLe := fun a b => inferInstanceAs (Decidable (a.1 ≤ b.1))

instance : IsTotal (String × String) rkeyLe := ⟨fun a b => le_total a.1 b.1⟩

instance : IsTrans (String × String) rkeyLe := ⟨fun _ _ _ h1 h2 => le_trans h1 h2⟩

instance : IsAntisymm (String × String) rkeyLt :=
  ⟨fun _ _ h1 h2 => absurd (lt_trans h1 h2) (lt_irrefl _)⟩

/-- Rendered object fields in the order `encoding/json` writes them: sorted
by key. -/
def sortRendered (l : List (String × String)) : List (String × String) :=
  List.insertionSort rkeyLe l

/-- JSON string quoting (character escaping is immaterial to the
key-equality claim and elided for the quote/backslash-free strings used). -/
def jsonQuote (s : String) : String := "\"" ++ s ++ "\""

mutual

/-- `json.Marshal`: null/booleans/numbers/strings as JSON scalars, arrays in
order, and map fields serialized in sorted key order (Go sorts the keys
before encoding the values; rendering each value first and then sorting the
rendered fields by key produces the same bytes, since a field's rendering
does not depend on its position). -/
def jsonMarshal : Json → String
  | .jnull => "null"
  | .jbool b => if b then "true" else "false"
  | .jnum n => toString n
  | .jstr s => jsonQuote s
  | .jarr l => "[" ++ String.intercalate "," (marshalArr l) ++ "]"
  | .jobj fs => "\x7b" ++ String.intercalate ","
      ((sortRendered (marshalFields fs)).map (fun kv => jsonQuote kv.1 ++ ":" ++ kv.2))
      ++ "\x7d"

/-- Marshal the elements of a JSON array. -/
def marshalArr : List Json → List String
  | [] => []
  | j :: tl => jsonMarshal j :: marshalArr tl

/-- Render each object field to (key, serialized value). -/
def marshalFields : List (String × Json) → List (String × String)
  | [] => []
  | (k, v) :: tl => (k, jsonMarshal v) :: marshalFields tl

end

/-- `Manager.GenerateKey`: `fmt.Sprintf("%s:%x", prefix, md5.Sum(jsonData))`.
The MD5-and-hex step is a fixed function of the marshaled bytes; since any
function of equal inputs yields equal outputs, it is abstracted as an
arbitrary `hash` parameter (which only strengthens the statement). -/
def GenerateKey (hash : String → String) (pre : String) (data : Json) : String :=
  pre ++ ":" ++ hash (jsonMarshal data)

/-! ## Measurement helpers for the parameterization claims -/

/-- The information about a filter value that may legitimately influence the
generated SQL text: whether it is a sentinel, a scalar, or a list of a given
length. -/
inductive VShape where
  | sentinelS
  | scalarS
  | listS (n : Nat)
deriving DecidableEq, Repr

/-- Shape of a filter value. -/
def shapeOf (v : GoVal) : VShape :=
  if isSentinelV v then .sentinelS
  else match v with
    | .vlist l => .listS l.length
    | _ => .scalarS

/-- Keys and shapes of a filter sequence. -/
def shapes (fs : Filters) : List (String × VShape) :=
  fs.map (fun kv => (kv.1, shapeOf kv.2))

/-- Number of `?` placeholders in a piece of SQL text. -/
def cQ (s : String) : Nat := s.toList.count '?'

/-- The values one filter entry binds: none for a sentinel, the elements for
a list, the value itself for a scalar. -/
def keptOne (v : GoVal) : List GoVal :=
  if isSentinelV v then []
  else match v with
    | .vlist arr => arr
    | v => [v]

/-- The values a filter sequence binds, in order. -/
def keptArgs (fs : Filters) : List GoVal :=
  (fs.map (fun kv => keptOne kv.2)).flatten

/-- The SQL text one filter entry adds to the filter-query WHERE clause,
as a function of its key and shape only. -/
def stepText (key : String) : VShape → String
  | .sentinelS => ""
  | .scalarS => " AND " ++ ("\"" ++ key ++ "\"") ++ " = ?"
  | .listS 0 => ""
  | .listS (n + 1) => " AND " ++ ("\"" ++ key ++ "\"") ++ " IN ("
      ++ String.intercalate "," (List.replicate (n + 1) "?") ++ ")"

/-- The WHERE text contributed by a whole key/shape sequence. -/
def textOfShapes : List (String × VShape) → String
  | [] => ""
  | p :: tl => stepText p.1 p.2 ++ textOfShapes tl

/-- Example tracker state holding one job, for the C1 witness. -/
def dmStateEx : DMState :=
  ⟨fun u => if u = "abc" then
      some { uuid := "abc", status := .downloading, startTime := 3,
             message := "Descargando CSV desde CKAN..." }
    else none⟩

/-- Example filesystem for the C5 witness: the cache dir is empty and a
freshly converted store sits at a temp path. -/
def fsEx : FS := fun p => if p = "/tmp/abc.duckdb" then some "storeA" else none

end Visor

namespace Visor

/-! ## Theorems -/

/-- C1: the Job Tracker holds at most one Download Job per dataset id:
`StartDownload(id)` with an existing job (in-flight or terminal) returns that
job object, changes nothing and launches nothing; with no job it creates a
Pending job, stores it, and launches the pipeline; over any sequence of
`StartDownload` calls the pipeline is launched at most once per id, and never
once a job for the id exists. -/
theorem startDownload_single_flight :
    (∀ (st : DMState) (now : Nat) (uuid : String) (job : DownloadJob),
      st.jobs uuid = some job → startDownload st now uuid = (job, st, false))
    ∧ (∀ (st : DMState) (now : Nat) (uuid : String),
      st.jobs uuid = none →
        (startDownload st now uuid).2.2 = true
        ∧ (startDownload st now uuid).1.status = .pending
        ∧ ((startDownload st now uuid).2.1).jobs uuid = some (startDownload st now uuid).1)
    ∧ (∀ (st : DMState) (calls : List (Nat × String)) (uuid : String),
      (st.jobs uuid).isSome → launchCount st calls uuid = 0)
    ∧ (∀ (st : DMState) (calls : List (Nat × String)) (uuid : String),
      launchCount st calls uuid ≤ 1) := by
  have hmono : ∀ (st : DMState) (now : Nat) (u uuid : String),
      (st.jobs uuid).isSome → (((startDownload st now u).2.1).jobs uuid).isSome := by
    intro st now u uuid h
    unfold startDownload
    cases hj : st.jobs u with
    | some j => simpa using h
    | none =>
      simp only []
      by_cases he : uuid = u
      · subst he; simp
      · simpa [he] using h
  have hzero : ∀ (calls : List (Nat × String)) (st : DMState) (uuid : String),
      (st.jobs uuid).isSome → launchCount st calls uuid = 0 := by
    intro calls
    induction calls with
    | nil => intro st uuid _; simp [launchCount, runStarts]
    | cons c rest ih =>
      intro st uuid h
      obtain ⟨now, u⟩ := c
    -- the head call launches only if no job for `u` exists; if it launches,
    -- the launched uuid is `u ≠ uuid` (since `uuid` has a job)
      have hrec := ih ((startDownload st now u).2.1) uuid (hmono st now u uuid h)
      simp only [launchCount, runStarts] at hrec ⊢
      by_cases hu : (startDownload st now u).2.2
      · have hne : u ≠ uuid := by
          intro he; subst he
          unfold startDownload at hu
          obtain ⟨j, hj⟩ := Option.isSome_iff_exists.mp h
          simp [hj] at hu
        simp [hu, List.count_cons, hrec, Ne.symm hne]
      · simp [hu, hrec]
  refine ⟨?_, ?_, ?_, ?_⟩
  · intro st now uuid job h
    unfold startDownload
    simp [h]
  · intro st now uuid h
    unfold startDownload
    simp [h]
  · intro st calls uuid h
    exact hzero calls st uuid h
  · intro st calls uuid
    induction calls generalizing st with
    | nil => simp [launchCount, runStarts]
    | cons c rest ih =>
      obtain ⟨now, u⟩ := c
      by_cases hu : (startDownload st now u).2.2
      · have hsome : (((startDownload st now u).2.1).jobs uuid).isSome
            ∨ u ≠ uuid := by
          by_cases he : u = uuid
          · subst he
            left
            unfold startDownload at hu ⊢
            cases hj : st.jobs u with
            | some j => simp [hj] at hu
            | none => simp [hj]
          · right; exact he
        simp only [launchCount, runStarts]
        by_cases he : u = uuid
        · subst he
          rcases hsome with hs | hne
          · have := hzero rest ((startDownload st now u).2.1) u hs
            simp only [launchCount] at this
            simp [hu, List.count_cons, this]
          · exact absurd rfl hne
        · have := ih ((startDownload st now u).2.1)
          simp only [launchCount] at this
          simp [hu, List.count_cons, Ne.symm he, this]
      · have := ih ((startDownload st now u).2.1)
        simp only [launchCount, runStarts] at this ⊢
        simp [hu, this]

/-- Witness for C1 at a concrete state: a second `StartDownload("abc")` while
a job is in flight returns the stored job, mutates nothing, launches nothing;
and two raw calls for a fresh id launch exactly once in total. -/
theorem startDownload_single_flight_witness :
    startDownload dmStateEx 9 "abc"
      = ({ uuid := "abc", status := .downloading, startTime := 3,
           message := "Descargando CSV desde CKAN..." }, dmStateEx, false)
    ∧ launchCount ⟨fun _ => none⟩ [(0, "xyz"), (1, "xyz")] "xyz" ≤ 1 := by
  refine ⟨?_, ?_⟩
  · exact startDownload_single_flight.1 dmStateEx 9 "abc" _ (by decide)
  · exact startDownload_single_flight.2.2.2 ⟨fun _ => none⟩ [(0, "xyz"), (1, "xyz")] "xyz"

/-- C5: disk placement is idempotent. `setDisk` is a silent no-op (returns
nil, moves and overwrites nothing) whenever the destination file exists; and
after `setDisk(id, srcA)` places a file, `setDisk(id, srcB)` leaves it — and
the whole filesystem — untouched. The first call is a move, not a copy: the
source path is empty afterwards. -/
theorem diskSet_idempotent (dir uuid srcA srcB : String) (fs : FS) (f : String) :
    (∀ g, fs (diskDst dir uuid) = some g → diskSet dir uuid srcB fs = .ok fs)
    ∧ (fs (diskDst dir uuid) = none → fs srcA = some f →
        srcA ≠ diskDst dir uuid →
        ∃ fs1, diskSet dir uuid srcA fs = .ok fs1
          ∧ fs1 (diskDst dir uuid) = some f
          ∧ fs1 srcA = none
          ∧ diskSet dir uuid srcB fs1 = .ok fs1) := by
  constructor
  · intro g hg
    unfold diskSet
    simp [hg]
  · intro hdst hsrc hne
    refine ⟨fsUpd (fsUpd fs srcA none) (diskDst dir uuid) (some f), ?_, ?_, ?_, ?_⟩
    · unfold diskSet
      simp [hdst, hsrc]
    · simp [fsUpd]
    · simp [fsUpd, hne]
    · unfold diskSet
      simp [fsUpd]

/-- Witness for C5 at a concrete filesystem: the first `setDisk` moves
`/tmp/abc.duckdb` to `/cache/abc.duckdb`; the second `setDisk` with a
different source is a silent no-op. -/
theorem diskSet_idempotent_witness :
    ∃ fs1, diskSet "/cache" "abc" "/tmp/abc.duckdb" fsEx = .ok fs1
      ∧ fs1 (diskDst "/cache" "abc") = some "storeA"
      ∧ fs1 "/tmp/abc.duckdb" = none
      ∧ diskSet "/cache" "abc" "/tmp/other.duckdb" fs1 = .ok fs1 :=
  (diskSet_idempotent "/cache" "abc" "/tmp/abc.duckdb" "/tmp/other.duckdb" fsEx "storeA").2
    (by decide) (by decide) (by decide)

/-- C10: the filtered-data, aggregated-data and metadata handlers test
`uuid != ""` and answer 400 "UUID requerido" when the extracted id is
non-empty (for the two POST-only handlers, after the method check), so no
request carrying a non-empty dataset id proceeds past the guard; only an
empty id proceeds. -/
theorem uuid_guard_inverted :
    (∀ path, trimPref path "/api/data/" ≠ "" →
        getFilteredDataGuard "POST" path = .reject 400 "UUID requerido")
    ∧ (∀ path, trimPref path "/api/aggregated/" ≠ "" →
        getAggregatedDataGuard "POST" path = .reject 400 "UUID requerido")
    ∧ (∀ path, trimPref path "/api/metadata/" ≠ "" →
        getMetadataGuard path = .reject 400 "UUID requerido")
    ∧ (∀ method path uuid,
        getFilteredDataGuard method path = .proceed uuid → uuid = "")
    ∧ (∀ method path uuid,
        getAggregatedDataGuard method path = .proceed uuid → uuid = "")
    ∧ (∀ path uuid, getMetadataGuard path = .proceed uuid → uuid = "") := by
  refine ⟨?_, ?_, ?_, ?_, ?_, ?_⟩
  · intro path h
    unfold getFilteredDataGuard
    simp [h]
  · intro path h
    unfold getAggregatedDataGuard
    simp [h]
  · intro path h
    unfold getMetadataGuard
    simp [h]
  · intro method path uuid h
    unfold getFilteredDataGuard at h
    by_cases hm : method ≠ "POST"
    · simp [hm] at h
    · by_cases hu : trimPref path "/api/data/" ≠ ""
      · simp [hm, hu] at h
      · simp only [ne_eq, not_not] at hu
        simp [hm, hu] at h
        exact h.symm
  · intro method path uuid h
    unfold getAggregatedDataGuard at h
    by_cases hm : method ≠ "POST"
    · simp [hm] at h
    · by_cases hu : trimPref path "/api/aggregated/" ≠ ""
      · simp [hm, hu] at h
      · simp only [ne_eq, not_not] at hu
        simp [hm, hu] at h
        exact h.symm
  · intro path uuid h
    unfold getMetadataGuard at h
    by_cases hu : trimPref path "/api/metadata/" ≠ ""
    · simp [hu] at h
    · simp only [ne_eq, not_not] at hu
      simp [hu] at h
      exact h.symm

/-- Witness for C10: a well-formed request for dataset `abc` is rejected with
400 "UUID requerido" by all three handlers. -/
theorem uuid_guard_inverted_witness :
    getFilteredDataGuard "POST" "/api/data/abc" = .reject 400 "UUID requerido"
    ∧ getAggregatedDataGuard "POST" "/api/aggregated/abc" = .reject 400 "UUID requerido"
    ∧ getMetadataGuard "/api/metadata/abc" = .reject 400 "UUID requerido" :=
  ⟨uuid_guard_inverted.1 "/api/data/abc" (by decide),
   uuid_guard_inverted.2.1 "/api/aggregated/abc" (by decide),
   uuid_guard_inverted.2.2.1 "/api/metadata/abc" (by decide)⟩

/-- Appending strings adds the double-quote counts. -/
theorem countDq_append (a b : String) : countDq (a ++ b) = countDq a + countDq b := by
  simp [countDq, String.data_append, List.filter_append]

/-- The sanitized index name contains no double quote. -/
theorem countDq_safeIdxName (col : String) : countDq (safeIdxName col) = 0 := by
  have hchar : ∀ r : Char,
      (if (('a' ≤ r && r ≤ 'z') || ('A' ≤ r && r ≤ 'Z') || ('0' ≤ r && r ≤ '9') || r = '_')
        then r else '_') ≠ dq := by
    intro r
    split
    · rename_i hc
      intro he
      subst he
      exact absurd hc (by decide)
    · decide
  simp only [countDq, safeIdxName, String.toList, List.length_eq_zero]
  rw [List.filter_map]
  rw [List.map_eq_nil_iff, List.filter_eq_nil_iff]
  intro a _
  simp only [Function.comp_apply, decide_eq_true_eq]
  exact hchar a

/-- C7 (code bug in `createIndex`): the `CREATE INDEX` statement interpolates
the column name after an opening double quote that is never closed, so the
statement carries an odd number of quotes (exactly one for quote-free column
names) and is rejected by the engine: no index is ever created, for the
date column `fecha` (which the heuristic does select) as for every other
selected column. The failure is caught, logged and skipped per column. -/
theorem createIndex_malformed_sql :
    indexSelected "fecha" = true
    ∧ createIndexQuery "fecha" = "CREATE INDEX IF NOT EXISTS idx_fecha ON data (\"fecha)"
    ∧ countDq (createIndexQuery "fecha") = 1
    ∧ (∀ col : String, countDq (createIndexQuery col) = 1 + countDq col) := by
  refine ⟨by decide, by decide, by decide, ?_⟩
  intro col
  have h1 : createIndexQuery col
      = "CREATE INDEX IF NOT EXISTS idx_" ++ safeIdxName col
        ++ " ON data (\"" ++ col ++ ")" := rfl
  rw [h1]
  rw [countDq_append, countDq_append, countDq_append, countDq_append, countDq_safeIdxName]
  have h2 : countDq "CREATE INDEX IF NOT EXISTS idx_" = 0 := by decide
  have h3 : countDq " ON data (\"" = 1 := by decide
  have h4 : countDq ")" = 0 := by decide
  omega

/-- C8 counterexample: with `OrderBy = "x"` and `OrderDir = "ASC"` (which is
not the string "asc"), the generated aggregation query orders ascending, not
descending as the claim requires. -/
theorem aggOrder_upper_asc_counterexample :
    buildAggregationQuery { agg := "count", orderBy := "x", orderDir := "ASC" }
      = ("SELECT COUNT(*) as total FROM data ORDER BY \"x\" ASC", [])
    ∧ containsSub (buildAggregationQuery
        { agg := "count", orderBy := "x", orderDir := "ASC" }).1 "DESC" = false := by
  constructor
  · rfl
  · decide

/-- C8 amended: with empty OrderBy the aggregation query orders by position 1
(the first selected column, i.e. the first group-by column, ascending by SQL
default) when the group-by list is non-empty, else by `total` descending;
with OrderBy given it orders by that column, descending unless OrderDir
lowercases to "asc" (the comparison is case-insensitive). The ORDER BY clause
is the second-to-last fragment of the full query, before an optional LIMIT. -/
theorem aggregation_order_amended :
    ∀ p : AggParams,
      (p.orderBy = "" → p.groupBy ≠ [] → orderByClause p = " ORDER BY 1")
      ∧ (p.orderBy = "" → p.groupBy = [] → orderByClause p = " ORDER BY total DESC")
      ∧ (p.orderBy ≠ "" → lowerStr p.orderDir = "asc" →
          orderByClause p = " ORDER BY \"" ++ p.orderBy ++ "\"" ++ " ASC")
      ∧ (p.orderBy ≠ "" → lowerStr p.orderDir ≠ "asc" →
          orderByClause p = " ORDER BY \"" ++ p.orderBy ++ "\"" ++ " DESC")
      ∧ ((p.limit > 0 →
            (buildAggregationQuery p).1
              = aggQueryCore p ++ orderByClause p ++ (" LIMIT " ++ toString p.limit))
          ∧ (¬p.limit > 0 →
            (buildAggregationQuery p).1 = aggQueryCore p ++ orderByClause p)) := by
  intro p
  refine ⟨?_, ?_, ?_, ?_, ?_, ?_⟩
  · intro h1 h2
    unfold orderByClause
    simp [h1, h2, List.isEmpty_iff]
  · intro h1 h2
    unfold orderByClause
    simp [h1, h2]
  · intro h1 h2
    unfold orderByClause
    have hd : p.orderDir ≠ "" := by
      intro hd
      rw [hd] at h2
      exact absurd h2 (by decide)
    simp [h1, h2, hd, String.append_assoc]
  · intro h1 h2
    unfold orderByClause
    by_cases hd : p.orderDir = ""
    · simp [h1, hd, String.append_assoc]
    · simp [h1, h2, hd, String.append_assoc]
  · intro hl
    unfold buildAggregationQuery
    simp [hl, String.append_assoc]
  · intro hl
    unfold buildAggregationQuery
    simp [hl]

/-- Witness for the amended C8 at concrete inputs: a grouped request without
explicit order gets `ORDER BY 1`, and OrderDir "Asc" (mixed case) still
yields ascending order. -/
theorem aggregation_order_amended_witness :
    orderByClause { groupBy := ["fecha"] } = " ORDER BY 1"
    ∧ orderByClause { orderBy := "x", orderDir := "Asc" }
        = " ORDER BY \"" ++ "x" ++ "\"" ++ " ASC" :=
  ⟨(aggregation_order_amended { groupBy := ["fecha"] }).1 rfl (by decide),
   (aggregation_order_amended { orderBy := "x", orderDir := "Asc" }).2.2.1
     (by decide) (by decide)⟩

/-- C4 counterexample: a filter entry carrying the literal string "all" is
not skipped — it contributes a parameterized predicate and a bound argument
to the WHERE clause. -/
theorem sentinel_all_counterexample :
    buildFilterQuery [("estado", .vstr "all")] 0 0
      = ("SELECT * FROM data WHERE 1=1 AND \"estado\" = ?", [.vstr "all"]) := rfl

/-- C4 amended: the sentinel values skipped by the filter and aggregation
(and stats/top/percentile/correlation) WHERE builders are null, the empty
string, and the literal "Todas" placeholder — not "all"; an entry carrying a
sentinel contributes neither a predicate nor a bound argument, at any
position in the iteration sequence. -/
theorem sentinel_skip_amended :
    (∀ (pre post : Filters) (k : String) (v : GoVal) (limit offset : Int),
      isSentinelV v = true →
      buildFilterQuery (pre ++ (k, v) :: post) limit offset
        = buildFilterQuery (pre ++ post) limit offset)
    ∧ (∀ (pre post : Filters) (k : String) (v : GoVal),
      isSentinelV v = true → aggWhere (pre ++ (k, v) :: post) = aggWhere (pre ++ post))
    ∧ (∀ (pre post : Filters) (k : String) (v : GoVal),
      isSentinelV v = true → simpleWhere (pre ++ (k, v) :: post) = simpleWhere (pre ++ post))
    ∧ (isSentinelV .vnull = true ∧ isSentinelV (.vstr "") = true
        ∧ isSentinelV (.vstr "Todas") = true ∧ isSentinelV (.vstr "all") = false) := by
  have hstep : ∀ (acc : String × List GoVal) (k : String) (v : GoVal),
      isSentinelV v = true → filterStep acc (k, v) = acc := by
    intro acc k v h
    unfold filterStep
    simp [h]
  have hastep : ∀ (acc : List String × List GoVal) (k : String) (v : GoVal),
      isSentinelV v = true → aggStep acc (k, v) = acc := by
    intro acc k v h
    unfold aggStep
    simp [h]
  refine ⟨?_, ?_, ?_, by decide, by decide, by decide, by decide⟩
  · intro pre post k v limit offset h
    have hfw : filterWhere (pre ++ (k, v) :: post) = filterWhere (pre ++ post) := by
      unfold filterWhere
      rw [List.foldl_append, List.foldl_append, List.foldl_cons,
        hstep _ k v h]
    unfold buildFilterQuery
    rw [hfw]
  · intro pre post k v h
    unfold aggWhere
    rw [List.foldl_append, List.foldl_append, List.foldl_cons, hastep _ k v h]
  · intro pre post k v h
    unfold simpleWhere
    rw [List.foldl_append, List.foldl_append, List.foldl_cons]
    simp [h]

/-- Witness for the amended C4: a "Todas" entry in the middle of a filter
sequence changes nothing. -/
theorem sentinel_skip_amended_witness :
    buildFilterQuery [("a", .vnum 1), ("k", .vstr "Todas")] 5 0
      = buildFilterQuery [("a", .vnum 1)] 5 0 :=
  sentinel_skip_amended.1 [("a", .vnum 1)] [] "k" (.vstr "Todas") 5 0 (by decide)

/-- Reversal preserves the byte total. -/
theorem sumSizes_reverse (l : List LRUEntry) : sumSizes l.reverse = sumSizes l := by
  simp [sumSizes, List.sum_reverse]

/-- `Set` on a key with no existing entry: push front, then eviction loop. -/
theorem set_insert_eq (c : LRUCache) (key value : String) (sz : Int)
    (h : c.evictList.find? (fun e => e.key == key) = none) :
    c.set key value sz
      = { c with
            evictList := (evictRev c.capacity c.maxSize
              (({ key := key, value := value, size := sz } : LRUEntry)
                :: c.evictList).reverse (c.size + sz)).1.reverse,
            size := (evictRev c.capacity c.maxSize
              (({ key := key, value := value, size := sz } : LRUEntry)
                :: c.evictList).reverse (c.size + sz)).2 } := by
  unfold LRUCache.set
  rw [h]

/-- `Set` on an existing key: move to front, update in place, no eviction. -/
theorem set_update_eq (c : LRUCache) (key value : String) (sz : Int) (old : LRUEntry)
    (h : c.evictList.find? (fun e => e.key == key) = some old) :
    c.set key value sz
      = { c with
            evictList := { key := key, value := value, size := sz }
              :: c.evictList.eraseP (fun e => e.key == key),
            size := c.size - old.size + sz } := by
  unfold LRUCache.set
  rw [h]

/-- The eviction loop always ends with at most `cap` entries, with no
assumption on the sizes. -/
theorem evictRev_length (cap : Nat) (maxB : Int) :
    ∀ (l : List LRUEntry) (s : Int), (evictRev cap maxB l s).1.length ≤ cap := by
  intro l
  induction l with
  | nil => intro s; simp [evictRev]
  | cons e rest ih =>
    intro s
    by_cases hc : (e :: rest).length > cap ∨ s > maxB
    · simp only [evictRev]
      rw [if_pos hc]
      exact ih (s - e.size)
    · simp only [evictRev]
      rw [if_neg hc]
      push_neg at hc
      exact hc.1

/-- Postconditions of the eviction loop under accounted, nonnegative sizes
and a nonnegative budget: the byte counter stays in sync, both bounds hold on
exit, only the oldest end is removed (the result is a suffix of the input),
and nonnegativity is preserved. -/
theorem evictRev_post (cap : Nat) (maxB : Int) (hB : 0 ≤ maxB) :
    ∀ (l : List LRUEntry) (s : Int), s = sumSizes l → (∀ e ∈ l, 0 ≤ e.size) →
      (evictRev cap maxB l s).2 = sumSizes (evictRev cap maxB l s).1
      ∧ (evictRev cap maxB l s).2 ≤ maxB
      ∧ (evictRev cap maxB l s).1.IsSuffix l
      ∧ (∀ e ∈ (evictRev cap maxB l s).1, 0 ≤ e.size) := by
  intro l
  induction l with
  | nil =>
    intro s hs _
    simp [sumSizes] at hs
    simp [evictRev, sumSizes, hs, hB]
  | cons e rest ih =>
    intro s hs hpos
    by_cases hc : (e :: rest).length > cap ∨ s > maxB
    · have hs2 : s - e.size = sumSizes rest := by
        simp only [sumSizes, List.map_cons, List.sum_cons] at hs
        simp only [sumSizes]
        omega
      have hp2 : ∀ x ∈ rest, 0 ≤ x.size := fun x hx => hpos x (List.mem_cons_of_mem e hx)
      obtain ⟨a, b, d, f⟩ := ih (s - e.size) hs2 hp2
      simp only [evictRev]
      rw [if_pos hc]
      exact ⟨a, b, d.trans (List.suffix_cons e rest), f⟩
    · push_neg at hc
      simp only [evictRev]
      rw [if_neg (by push_neg; exact hc)]
      exact ⟨hs, hc.2, List.suffix_refl _, hpos⟩

/-- When `find?` locates an entry, erasing drops exactly that entry's size
and one list slot, keeping a subcollection of the entries. -/
theorem eraseP_found (p : LRUEntry → Bool) :
    ∀ (l : List LRUEntry) (a : LRUEntry), l.find? p = some a →
      sumSizes (l.eraseP p) = sumSizes l - a.size
      ∧ (l.eraseP p).length + 1 = l.length
      ∧ ∀ e ∈ l.eraseP p, e ∈ l := by
  intro l
  induction l with
  | nil => intro a ha; simp at ha
  | cons x rest ih =>
    intro a ha
    by_cases hx : p x
    · rw [List.find?_cons_of_pos _ hx] at ha
      injection ha with ha
      subst ha
      rw [List.eraseP_cons_of_pos hx]
      refine ⟨by simp [sumSizes], by simp, fun e he => List.mem_cons_of_mem _ he⟩
    · rw [List.find?_cons_of_neg _ hx] at ha
      rw [List.eraseP_cons_of_neg hx]
      obtain ⟨h1, h2, h3⟩ := ih a ha
      refine ⟨?_, by simpa using h2, ?_⟩
      · simp only [sumSizes, List.map_cons, List.sum_cons] at h1 ⊢
        omega
      · intro e he
        rcases List.mem_cons.mp he with he | he
        · exact he ▸ List.mem_cons_self x rest
        · exact List.mem_cons_of_mem x (h3 e he)

/-- `Set` never changes the capacity or the byte budget. -/
theorem set_preserves_config (c : LRUCache) (key value : String) (sz : Int) :
    (c.set key value sz).capacity = c.capacity
    ∧ (c.set key value sz).maxSize = c.maxSize := by
  unfold LRUCache.set
  cases c.evictList.find? (fun e => e.key == key) <;> simp

/-- C2 counterexample: with byte budget 100, `Set("a", 50)` then
`Set("a", 200)` (an update of the existing key) leaves the cache holding 200
bytes against the 100-byte budget: the eviction loop did not run on the
update path, so `totalBytes ≤ maxBytes` fails after this sequence of `Set`
calls. -/
theorem lru_bounds_counterexample :
    (applyOps 100 [("a", "v", 50), ("a", "v", 200)]).size = 200
    ∧ (applyOps 100 [("a", "v", 50), ("a", "v", 200)]).maxSize = 100
    ∧ ¬ (applyOps 100 [("a", "v", 50), ("a", "v", 200)]).size
        ≤ (applyOps 100 [("a", "v", 50), ("a", "v", 200)]).maxSize := by
  refine ⟨by decide, by decide, by decide⟩

/-- C2 amended: after any sequence of `Set` calls the entry-count bound
`entryCount ≤ cap` (cap = 10) holds; a `Set` that inserts a new key runs the
eviction loop and re-establishes `totalBytes ≤ maxBytes` (given accounted,
nonnegative sizes and budget), evicting only from the least-recently-used
end — the surviving list is a prefix of the new entry pushed onto the old
list, so the most recently accessed entry is never evicted while a strictly
older entry remains; but a `Set` that updates an existing key runs no
eviction: it keeps the entry count and shifts the byte counter by
`-old.size + new.size`, which can leave `totalBytes > maxBytes` (see the
counterexample); the byte counter itself stays accounted throughout. -/
theorem lru_set_amended :
    (∀ (maxB : Int) (ops : List (String × String × Int)),
      (applyOps maxB ops).evictList.length ≤ (applyOps maxB ops).capacity
      ∧ (applyOps maxB ops).capacity = 10)
    ∧ (∀ (c : LRUCache) (key value : String) (sz : Int),
      SizeAccounted c → 0 ≤ sz → 0 ≤ c.maxSize →
      c.evictList.find? (fun e => e.key == key) = none →
        (c.set key value sz).size ≤ c.maxSize
        ∧ (c.set key value sz).evictList.length ≤ c.capacity
        ∧ List.IsPrefix (c.set key value sz).evictList
            ({ key := key, value := value, size := sz } :: c.evictList))
    ∧ (∀ (c : LRUCache) (key value : String) (sz : Int) (old : LRUEntry),
      c.evictList.find? (fun e => e.key == key) = some old →
        (c.set key value sz).evictList.length = c.evictList.length
        ∧ (c.set key value sz).size = c.size - old.size + sz)
    ∧ (∀ (maxB : Int) (ops : List (String × String × Int)),
      0 ≤ maxB → (∀ op ∈ ops, 0 ≤ op.2.2) → SizeAccounted (applyOps maxB ops)) := by
  have hsetlen : ∀ (c : LRUCache) (key value : String) (sz : Int),
      c.evictList.length ≤ c.capacity →
      (c.set key value sz).evictList.length ≤ (c.set key value sz).capacity := by
    intro c key value sz hc
    cases hf : c.evictList.find? (fun e => e.key == key) with
    | some old =>
      rw [set_update_eq c key value sz old hf]
      obtain ⟨_, h2, _⟩ := eraseP_found (fun e => e.key == key) c.evictList old hf
      simp only [List.length_cons]
      omega
    | none =>
      rw [set_insert_eq c key value sz hf]
      simp only [List.length_reverse]
      exact evictRev_length c.capacity c.maxSize _ _
  have hinsert : ∀ (c : LRUCache) (key value : String) (sz : Int),
      c.evictList.find? (fun e => e.key == key) = none →
      SizeAccounted c → 0 ≤ sz → 0 ≤ c.maxSize →
        (c.set key value sz).size ≤ c.maxSize
        ∧ SizeAccounted (c.set key value sz)
        ∧ List.IsPrefix (c.set key value sz).evictList
            ({ key := key, value := value, size := sz } :: c.evictList) := by
    intro c key value sz hfind hacc hsz hmax
    have hs : c.size + sz
        = sumSizes ((({ key := key, value := value, size := sz } : LRUEntry)
            :: c.evictList).reverse) := by
      rw [sumSizes_reverse]
      simp only [sumSizes, List.map_cons, List.sum_cons]
      rw [hacc.1]
      simp only [sumSizes]
      omega
    have hp : ∀ e ∈ (({ key := key, value := value, size := sz } : LRUEntry)
        :: c.evictList).reverse, 0 ≤ e.size := by
      intro e he
      rw [List.mem_reverse] at he
      rcases List.mem_cons.mp he with he | he
      · subst he; exact hsz
      · exact hacc.2 e he
    obtain ⟨ha, hb, hd, hf⟩ := evictRev_post c.capacity c.maxSize hmax _ _ hs hp
    rw [set_insert_eq c key value sz hfind]
    refine ⟨hb, ⟨by simpa [sumSizes_reverse] using ha, ?_⟩, ?_⟩
    · intro e he
      exact hf e (by simpa using he)
    · have hd2 : ((evictRev c.capacity c.maxSize
          (({ key := key, value := value, size := sz } : LRUEntry)
            :: c.evictList).reverse (c.size + sz)).1.reverse).reverse.IsSuffix
          ((({ key := key, value := value, size := sz } : LRUEntry)
            :: c.evictList).reverse) := by
        simpa using hd
      exact List.reverse_suffix.mp hd2
  have hupdate : ∀ (c : LRUCache) (key value : String) (sz : Int) (old : LRUEntry),
      c.evictList.find? (fun e => e.key == key) = some old →
        (c.set key value sz).evictList.length = c.evictList.length
        ∧ (c.set key value sz).size = c.size - old.size + sz
        ∧ (SizeAccounted c → 0 ≤ sz → SizeAccounted (c.set key value sz)) := by
    intro c key value sz old hfind
    obtain ⟨h1, h2, h3⟩ := eraseP_found (fun e => e.key == key) c.evictList old hfind
    rw [set_update_eq c key value sz old hfind]
    refine ⟨by simpa using h2, rfl, ?_⟩
    intro hacc hsz
    constructor
    · simp only [sumSizes, List.map_cons, List.sum_cons]
      simp only [sumSizes] at h1
      rw [hacc.1]
      simp only [sumSizes]
      omega
    · intro e he
      rcases List.mem_cons.mp he with he | he
      · subst he; exact hsz
      · exact hacc.2 e (h3 e he)
  refine ⟨?_, ?_, ?_, ?_⟩
  · intro maxB ops
    suffices h : ∀ (ops : List (String × String × Int)) (c : LRUCache),
        c.evictList.length ≤ c.capacity →
        (ops.foldl (fun c op => c.set op.1 op.2.1 op.2.2) c).evictList.length
          ≤ (ops.foldl (fun c op => c.set op.1 op.2.1 op.2.2) c).capacity
        ∧ (ops.foldl (fun c op => c.set op.1 op.2.1 op.2.2) c).capacity = c.capacity by
      have := h ops (NewLRUCache maxB) (by simp [NewLRUCache])
      exact ⟨this.1, by rw [applyOps] at *; rw [this.2]; rfl⟩
    intro ops
    induction ops with
    | nil => intro c hc; exact ⟨hc, rfl⟩
    | cons op rest ih =>
      intro c hc
      have hstep := hsetlen c op.1 op.2.1 op.2.2 hc
      have := ih (c.set op.1 op.2.1 op.2.2) hstep
      rw [List.foldl_cons]
      exact ⟨this.1, by rw [this.2, (set_preserves_config c op.1 op.2.1 op.2.2).1]⟩
  · intro c key value sz hacc hsz hmax hfind
    obtain ⟨h1, h2, h3⟩ := hinsert c key value sz hfind hacc hsz hmax
    refine ⟨h1, ?_, h3⟩
    rw [set_insert_eq c key value sz hfind]
    simpa using evictRev_length c.capacity c.maxSize
      ((({ key := key, value := value, size := sz } : LRUEntry) :: c.evictList).reverse)
      (c.size + sz)
  · intro c key value sz old hfind
    obtain ⟨h1, h2, _⟩ := hupdate c key value sz old hfind
    exact ⟨h1, h2⟩
  · intro maxB ops hB hops
    suffices h : ∀ (ops : List (String × String × Int)) (c : LRUCache),
        (∀ op ∈ ops, 0 ≤ op.2.2) → SizeAccounted c → 0 ≤ c.maxSize →
        SizeAccounted (ops.foldl (fun c op => c.set op.1 op.2.1 op.2.2) c) by
      exact h ops (NewLRUCache maxB) hops
        (by constructor <;> simp [NewLRUCache, sumSizes]) (by simpa [NewLRUCache] using hB)
    intro ops
    induction ops with
    | nil => intro c _ hacc _; exact hacc
    | cons op rest ih =>
      intro c hops2 hacc hmax
      have hop : (0 : Int) ≤ op.2.2 := hops2 op (List.mem_cons_self op rest)
      have hrest : ∀ o ∈ rest, (0 : Int) ≤ o.2.2 :=
        fun o ho => hops2 o (List.mem_cons_of_mem op ho)
      have hacc2 : SizeAccounted (c.set op.1 op.2.1 op.2.2) := by
        cases hf : c.evictList.find? (fun e => e.key == op.1) with
        | some old => exact (hupdate c op.1 op.2.1 op.2.2 old hf).2.2 hacc hop
        | none => exact (hinsert c op.1 op.2.1 op.2.2 hf hacc hop hmax).2.1
      have hmax2 : 0 ≤ (c.set op.1 op.2.1 op.2.2).maxSize := by
        rw [(set_preserves_config c op.1 op.2.1 op.2.2).2]
        exact hmax
      rw [List.foldl_cons]
      exact ih (c.set op.1 op.2.1 op.2.2) hrest hacc2 hmax2

/-- Witness for the amended C2 at concrete inputs: inserting a fresh key into
a fresh cache keeps both bounds, and an update of an existing entry keeps the
entry count and shifts the byte counter. -/
theorem lru_set_amended_witness :
    ((NewLRUCache 100).set "a" "v" 50).size ≤ (NewLRUCache 100).maxSize
    ∧ (applyOps 100 [("a", "v", 50)]).evictList.length
        ≤ (applyOps 100 [("a", "v", 50)]).capacity
    ∧ ((applyOps 100 [("a", "v", 50)]).set "a" "w" 200).size
        = (applyOps 100 [("a", "v", 50)]).size - 50 + 200 := by
  refine ⟨?_, ?_, ?_⟩
  · exact (lru_set_amended.2.1 (NewLRUCache 100) "a" "v" 50
      (by constructor <;> simp [NewLRUCache, sumSizes]) (by decide) (by decide)
      (by decide)).1
  · exact (lru_set_amended.1 100 [("a", "v", 50)]).1
  · exact ((lru_set_amended.2.2.1 (applyOps 100 [("a", "v", 50)]) "a" "w" 200
      { key := "a", value := "v", size := 50 } (by decide)).2)

/-- C9: `GetStats` on an empty-after-filtering result set returns an explicit
error condition to the caller — scanning the engine's NULL aggregates into
float64 destinations fails — never a stats map; and whenever a map is
returned, every numeric field comes from a non-NULL aggregate, with `iqr`
derived as `q75 - q25`. -/
theorem getStats_empty_error :
    (∀ r : EngineStatsRow, EmptyResultRow r →
      getStatsScan r
        = .error "sql: Scan error: converting NULL to float64 is unsupported")
    ∧ (∀ (r : EngineStatsRow) (s : StatsOut), getStatsScan r = .ok s →
        r.q75V = some s.q75 ∧ r.q25V = some s.q25 ∧ s.iqr = s.q75 - s.q25) := by
  constructor
  · intro r h
    obtain ⟨_, _, h3, h4, h5, h6, h7, h8, h9⟩ := h
    simp [getStatsScan, h3, h4, h5, h6, h7, h8, h9]
  · intro r s h
    unfold getStatsScan at h
    split at h
    · rename_i mn mx me md sd q25 q75 hmn hmx hme hmd hsd hq25 hq75
      injection h with h
      subst h
      exact ⟨hq75, hq25, rfl⟩
    · exact absurd h (by simp)

/-- Witness for C9 at a concrete engine row: zero rows makes every aggregate
NULL and `GetStats` surfaces the scan error; a fully populated row yields the
map with `iqr = q75 - q25`. -/
theorem getStats_empty_error_witness :
    getStatsScan ({ count := 0, distinctCount := 0, minV := none, maxV := none,
                    meanV := none, medianV := none, stddevV := none, q25V := none,
                    q75V := none } : EngineStatsRow)
      = .error "sql: Scan error: converting NULL to float64 is unsupported"
    ∧ ({ count := 3, distinctCount := 2, minS := 1, maxS := 5, mean := 3,
          median := 3, stddev := 2, q25 := 2, q75 := 4, iqr := 4 - 2 } : StatsOut).iqr
        = ({ count := 3, distinctCount := 2, minS := 1, maxS := 5, mean := 3,
             median := 3, stddev := 2, q25 := 2, q75 := 4, iqr := 4 - 2 } : StatsOut).q75
          - ({ count := 3, distinctCount := 2, minS := 1, maxS := 5, mean := 3,
               median := 3, stddev := 2, q25 := 2, q75 := 4, iqr := 4 - 2 } : StatsOut).q25 := by
  constructor
  · exact getStats_empty_error.1 _ (by decide)
  · exact (getStats_empty_error.2
      ({ count := 3, distinctCount := 2, minV := some 1, maxV := some 5,
         meanV := some 3, medianV := some 3, stddevV := some 2,
         q25V := some 2, q75V := some 4 } : EngineStatsRow)
      ({ count := 3, distinctCount := 2, minS := 1, maxS := 5, mean := 3,
         median := 3, stddev := 2, q25 := 2, q75 := 4, iqr := 4 - 2 } : StatsOut) rfl).2.2

/-- Rendering object fields is a map over the field list. -/
theorem marshalFields_eq_map (fs : List (String × Json)) :
    marshalFields fs = fs.map (fun kv => (kv.1, jsonMarshal kv.2)) := by
  induction fs with
  | nil => rfl
  | cons kv tl ih =>
    obtain ⟨k, v⟩ := kv
    simp [marshalFields, ih]

/-- Two permuted field lists with distinct keys sort identically. -/
theorem sortRendered_eq_of_perm (l1 l2 : List (String × String)) (h : l1.Perm l2)
    (hnd : (l1.map Prod.fst).Nodup) : sortRendered l1 = sortRendered l2 := by
  have hne1 : List.Pairwise (fun a b : String × String => a.1 ≠ b.1) l1 :=
    List.pairwise_map.mp hnd
  have hsymm : ∀ {x y : String × String}, x.1 ≠ y.1 → y.1 ≠ x.1 := fun h => h.symm
  have hp1 : (sortRendered l1).Perm l1 := List.perm_insertionSort rkeyLe l1
  have hp2 : (sortRendered l2).Perm l2 := List.perm_insertionSort rkeyLe l2
  have hne1s : List.Pairwise (fun a b : String × String => a.1 ≠ b.1) (sortRendered l1) :=
    (hp1.pairwise_iff hsymm).mpr hne1
  have hne2s : List.Pairwise (fun a b : String × String => a.1 ≠ b.1) (sortRendered l2) :=
    (hp2.pairwise_iff hsymm).mpr ((h.pairwise_iff hsymm).mp hne1)
  have hs1 : List.Sorted rkeyLe (sortRendered l1) := List.sorted_insertionSort rkeyLe l1
  have hs2 : List.Sorted rkeyLe (sortRendered l2) := List.sorted_insertionSort rkeyLe l2
  have hlt1 : List.Sorted rkeyLt (sortRendered l1) :=
    (hs1.and hne1s).imp (fun h => lt_of_le_of_ne h.1 h.2)
  have hlt2 : List.Sorted rkeyLt (sortRendered l2) :=
    (hs2.and hne2s).imp (fun h => lt_of_le_of_ne h.1 h.2)
  exact List.eq_of_perm_of_sorted ((hp1.trans h).trans hp2.symm) hlt1 hlt2

/-- C6: `GenerateKey(prefix, params)` is deterministic (it is a function of
its arguments) and order-independent with respect to map key order: two
parameter maps holding the same bindings, supplied in any orders, marshal to
the same bytes — `encoding/json` sorts map keys — and therefore produce the
identical cache key `prefix:hex(md5(...))`, for every hash function. -/
theorem generateKey_order_independent (hash : String → String) (pre : String)
    (fs fs' : List (String × Json)) (hperm : fs.Perm fs')
    (hnd : (fs.map Prod.fst).Nodup) :
    GenerateKey hash pre (.jobj fs) = GenerateKey hash pre (.jobj fs') := by
  have hperm2 : (marshalFields fs).Perm (marshalFields fs') := by
    rw [marshalFields_eq_map, marshalFields_eq_map]
    exact hperm.map _
  have hnd2 : ((marshalFields fs).map Prod.fst).Nodup := by
    rw [marshalFields_eq_map]
    simpa [List.map_map, Function.comp] using hnd
  have hs : sortRendered (marshalFields fs) = sortRendered (marshalFields fs') :=
    sortRendered_eq_of_perm _ _ hperm2 hnd2
  have hm : jsonMarshal (.jobj fs) = jsonMarshal (.jobj fs') := by
    simp only [jsonMarshal]
    rw [hs]
  unfold GenerateKey
  rw [hm]

/-- Witness for C6 at a concrete map: the two key orders of
`{"uuid": "abc", "params": 1}` give the same key, with the hash instantiated
to the identity. -/
theorem generateKey_order_independent_witness :
    GenerateKey (fun s => s) "data" (.jobj [("uuid", .jstr "abc"), ("params", .jnum 1)])
      = GenerateKey (fun s => s) "data"
          (.jobj [("params", .jnum 1), ("uuid", .jstr "abc")]) :=
  generateKey_order_independent (fun s => s) "data" _ _
    (List.Perm.swap ("params", Json.jnum 1) ("uuid", Json.jstr "abc") [])
    (by decide)

/-- Mapping a list to constant "?" placeholders is a replicate. -/
theorem mapConstQ (arr : List GoVal) :
    arr.map (fun _ => "?") = List.replicate arr.length "?" := by
  induction arr with
  | nil => rfl
  | cons a tl ih => simp [ih, List.replicate_succ]

/-- The text a filter entry appends depends only on its key and shape. -/
theorem filterStep_fst (acc : String × List GoVal) (kv : String × GoVal) :
    (filterStep acc kv).1 = acc.1 ++ stepText kv.1 (shapeOf kv.2) := by
  obtain ⟨k, v⟩ := kv
  match v with
  | .vnull => simp [filterStep, stepText, shapeOf, isSentinelV]
  | .vbool b =>
    simp [filterStep, stepText, shapeOf, isSentinelV, String.append_assoc]
  | .vnum n =>
    simp [filterStep, stepText, shapeOf, isSentinelV, String.append_assoc]
  | .vstr str =>
    by_cases hs : str = "" ∨ str = "Todas"
    · rcases hs with rfl | rfl <;> simp [filterStep, stepText, shapeOf, isSentinelV]
    · push_neg at hs
      simp [filterStep, stepText, shapeOf, isSentinelV, hs.1, hs.2, String.append_assoc]
  | .vlist arr =>
    match arr with
    | [] => simp [filterStep, stepText, shapeOf, isSentinelV]
    | a :: tl =>
      simp [filterStep, stepText, shapeOf, isSentinelV, mapConstQ, String.append_assoc,
        List.replicate_succ]

/-- The args a filter entry appends are exactly its kept values. -/
theorem filterStep_snd (acc : String × List GoVal) (kv : String × GoVal) :
    (filterStep acc kv).2 = acc.2 ++ keptOne kv.2 := by
  obtain ⟨k, v⟩ := kv
  match v with
  | .vnull => simp [filterStep, keptOne, isSentinelV]
  | .vbool b => simp [filterStep, keptOne, isSentinelV]
  | .vnum n => simp [filterStep, keptOne, isSentinelV]
  | .vstr str =>
    by_cases hs : str = "" ∨ str = "Todas"
    · rcases hs with rfl | rfl <;> simp [filterStep, keptOne, isSentinelV]
    · push_neg at hs
      simp [filterStep, keptOne, isSentinelV, hs.1, hs.2]
  | .vlist arr =>
    match arr with
    | [] => simp [filterStep, keptOne, isSentinelV]
    | a :: tl => simp [filterStep, keptOne, isSentinelV]

/-- The aggregation WHERE loop appends the same args. -/
theorem aggStep_snd (acc : List String × List GoVal) (kv : String × GoVal) :
    (aggStep acc kv).2 = acc.2 ++ keptOne kv.2 := by
  obtain ⟨k, v⟩ := kv
  match v with
  | .vnull => simp [aggStep, keptOne, isSentinelV]
  | .vbool b => simp [aggStep, keptOne, isSentinelV]
  | .vnum n => simp [aggStep, keptOne, isSentinelV]
  | .vstr str =>
    by_cases hs : str = "" ∨ str = "Todas"
    · rcases hs with rfl | rfl <;> simp [aggStep, keptOne, isSentinelV]
    · push_neg at hs
      simp [aggStep, keptOne, isSentinelV, hs.1, hs.2]
  | .vlist arr =>
    match arr with
    | [] => simp [aggStep, keptOne, isSentinelV]
    | a :: tl => simp [aggStep, keptOne, isSentinelV]

/-- The filter-loop text is the base plus a function of keys and shapes. -/
theorem filterFold_fst (fs : Filters) :
    ∀ (q : String) (a : List GoVal),
      (List.foldl filterStep (q, a) fs).1 = q ++ textOfShapes (shapes fs) := by
  induction fs with
  | nil => intro q a; simp [shapes, textOfShapes]
  | cons kv rest ih =>
    intro q a
    rw [List.foldl_cons]
    have hstep := filterStep_fst (q, a) kv
    have hrec := ih (filterStep (q, a) kv).1 (filterStep (q, a) kv).2
    calc (List.foldl filterStep (filterStep (q, a) kv) rest).1
        = (filterStep (q, a) kv).1 ++ textOfShapes (shapes rest) := by
          rw [← hrec]
      _ = q ++ textOfShapes (shapes (kv :: rest)) := by
          simp only [hstep, shapes, List.map_cons, textOfShapes]
          rw [String.append_assoc]

/-- The filter-loop args are the initial args plus the kept values. -/
theorem filterFold_snd (fs : Filters) :
    ∀ (q : String) (a : List GoVal),
      (List.foldl filterStep (q, a) fs).2 = a ++ keptArgs fs := by
  induction fs with
  | nil => intro q a; simp [keptArgs]
  | cons kv rest ih =>
    intro q a
    rw [List.foldl_cons]
    have hrec := ih (filterStep (q, a) kv).1 (filterStep (q, a) kv).2
    calc (List.foldl filterStep (filterStep (q, a) kv) rest).2
        = (filterStep (q, a) kv).2 ++ keptArgs rest := by
          rw [← hrec]
      _ = a ++ keptArgs (kv :: rest) := by
          simp only [filterStep_snd, keptArgs, List.map_cons, List.flatten_cons]
          rw [List.append_assoc]

/-- The aggregation WHERE-loop args are the kept values. -/
theorem aggFold_snd (fs : Filters) :
    ∀ (cs : List String) (a : List GoVal),
      (List.foldl aggStep (cs, a) fs).2 = a ++ keptArgs fs := by
  induction fs with
  | nil => intro cs a; simp [keptArgs]
  | cons kv rest ih =>
    intro cs a
    rw [List.foldl_cons]
    have hrec := ih (aggStep (cs, a) kv).1 (aggStep (cs, a) kv).2
    calc (List.foldl aggStep (aggStep (cs, a) kv) rest).2
        = (aggStep (cs, a) kv).2 ++ keptArgs rest := by
          rw [← hrec]
      _ = a ++ keptArgs (kv :: rest) := by
          simp only [aggStep_snd, keptArgs, List.map_cons, List.flatten_cons]
          rw [List.append_assoc]

/-- Placeholder counts add over string append. -/
theorem cq_append (a b : String) : cQ (a ++ b) = cQ a + cQ b := by
  simp [cQ, String.toList, String.data_append, List.count_append]

/-- Placeholder count of the joined placeholders: one per element. -/
theorem cq_go (l : List String) :
    ∀ acc : String, (∀ x ∈ l, x = "?") →
      cQ (String.intercalate.go acc "," l) = cQ acc + l.length := by
  induction l with
  | nil => intro acc _; simp [String.intercalate.go]
  | cons x tl ih =>
    intro acc h
    have hx : x = "?" := h x (List.mem_cons_self x tl)
    subst hx
    have htl : ∀ y ∈ tl, y = "?" := fun y hy => h y (List.mem_cons_of_mem _ hy)
    rw [String.intercalate.go, ih (acc ++ "," ++ "?") htl, cq_append, cq_append]
    have h1 : cQ "," = 0 := by decide
    have h2 : cQ "?" = 1 := by decide
    simp [h1, h2]
    omega

/-- Placeholder count of `IN (?, ... ?)`'s placeholder list. -/
theorem cq_replicate (n : Nat) :
    cQ (String.intercalate "," (List.replicate (n + 1) "?")) = n + 1 := by
  rw [List.replicate_succ, String.intercalate]
  rw [cq_go (List.replicate n "?") "?" (fun x hx => List.eq_of_mem_replicate hx)]
  have h2 : cQ "?" = 1 := by decide
  simp [h2]
  omega

/-- With a placeholder-free key, an entry's text holds exactly one
placeholder per value it binds. -/
theorem cq_stepText (k : String) (v : GoVal) (hk : cQ k = 0) :
    cQ (stepText k (shapeOf v)) = (keptOne v).length := by
  have hAnd : cQ " AND " = 0 := by decide
  have hQu : cQ "\"" = 0 := by decide
  have hEq : cQ " = ?" = 1 := by decide
  have hIn : cQ " IN (" = 0 := by decide
  have hCl : cQ ")" = 0 := by decide
  match v with
  | .vnull => simp [stepText, shapeOf, keptOne, isSentinelV, cQ]
  | .vbool b =>
    simp [stepText, shapeOf, keptOne, isSentinelV, cq_append, hk, hAnd, hQu, hEq]
  | .vnum n =>
    simp [stepText, shapeOf, keptOne, isSentinelV, cq_append, hk, hAnd, hQu, hEq]
  | .vstr str =>
    by_cases hs : str = "" ∨ str = "Todas"
    · rcases hs with rfl | rfl <;> simp [stepText, shapeOf, keptOne, isSentinelV, cQ]
    · push_neg at hs
      simp [stepText, shapeOf, keptOne, isSentinelV, hs.1, hs.2, cq_append, hk,
        hAnd, hQu, hEq]
  | .vlist arr =>
    match arr with
    | [] => simp [stepText, shapeOf, keptOne, isSentinelV, cQ]
    | a :: tl =>
      have hrep := cq_replicate tl.length
      simp [stepText, shapeOf, keptOne, isSentinelV, cq_append, hk, hrep,
        hAnd, hQu, hIn, hCl]

/-- Texts of equal key/shape sequences have equal placeholder counts per
entry; summed over the sequence, the WHERE text holds one placeholder per
bound argument. -/
theorem cq_textOfShapes (fs : Filters) (h : ∀ kv ∈ fs, cQ kv.1 = 0) :
    cQ (textOfShapes (shapes fs)) = (keptArgs fs).length := by
  induction fs with
  | nil => simp [shapes, textOfShapes, keptArgs, cQ]
  | cons kv rest ih =>
    have hk : cQ kv.1 = 0 := h kv (List.mem_cons_self kv rest)
    have hrest : ∀ x ∈ rest, cQ x.1 = 0 := fun x hx => h x (List.mem_cons_of_mem _ hx)
    rw [shapes, List.map_cons, textOfShapes, cq_append, cq_stepText kv.1 kv.2 hk]
    rw [keptArgs, List.map_cons, List.flatten_cons, List.length_append]
    have := ih hrest
    rw [shapes] at this
    rw [keptArgs] at this
    omega

/-- Strings built as `A ++ x ++ rest` with the same `A` and `rest` and
different `x` differ. -/
theorem append_mid_ne (A x y rest : String) (h : x ≠ y) :
    A ++ x ++ rest ≠ A ++ y ++ rest := by
  intro heq
  have hd := congrArg String.data heq
  simp only [String.data_append, List.append_assoc] at hd
  have h1 := List.append_cancel_left hd
  have h2 := List.append_cancel_right h1
  exact h (String.ext h2)

/-- C3 counterexample: the percentile constant 0.5 is formatted by `%f`
straight into the `PERCENTILE_CONT` query text — the text carries
"0.500000" and the args carry only the one filter value, so this value is
string-interpolated, not passed as a parameter placeholder. -/
theorem percentile_value_interpolated :
    percentileQuery (mkRat 1 2) "monto" [("estado", .vstr "Jalisco")]
      = ("\n\t\t\tSELECT PERCENTILE_CONT(0.500000) WITHIN GROUP (ORDER BY \"monto\")\n\t\t\tFROM data\n\t\t\tWHERE 1=1 AND \"estado\" = ?\n\t\t",
         [.vstr "Jalisco"])
    ∧ containsSub
        (percentileQuery (mkRat 1 2) "monto" [("estado", .vstr "Jalisco")]).1
        "0.500000" = true
    ∧ ((percentileQuery (mkRat 1 2) "monto" [("estado", .vstr "Jalisco")]).2).length
        = 1 := by
  refine ⟨rfl, by decide, rfl⟩

/-- C3 amended: across the query builders, every *filter* value is bound as
a `?` parameter appended to args — the generated text is a function of the
filter keys and shapes alone and carries exactly one placeholder per bound
argument, for the filter query as for the aggregation WHERE; but the
percentile constant of `GetPercentiles` and the LIMIT count are formatted
into the SQL text rather than bound: the percentile changes the text and not
the args, and the LIMIT count changes the text. -/
theorem query_parameterization_amended :
    (∀ (fs fs' : Filters) (limit offset : Int), shapes fs = shapes fs' →
      (buildFilterQuery fs limit offset).1 = (buildFilterQuery fs' limit offset).1)
    ∧ (∀ fs : Filters, (∀ kv ∈ fs, cQ kv.1 = 0) →
      cQ (filterWhere fs).1 = ((filterWhere fs).2).length)
    ∧ (∀ (fs : Filters) (limit offset : Int),
      (buildFilterQuery fs limit offset).2 = keptArgs fs)
    ∧ (∀ p : AggParams, (buildAggregationQuery p).2 = keptArgs p.filters)
    ∧ (∀ (p p' : ℚ) (col : String) (fs : Filters), formatF p ≠ formatF p' →
      (percentileQuery p col fs).1 ≠ (percentileQuery p' col fs).1)
    ∧ (∀ (p p' : ℚ) (col : String) (fs : Filters),
      (percentileQuery p col fs).2 = (percentileQuery p' col fs).2)
    ∧ (∀ fs : Filters, (buildFilterQuery fs 10 0).1 ≠ (buildFilterQuery fs 20 0).1) := by
  refine ⟨?_, ?_, ?_, ?_, ?_, ?_, ?_⟩
  · intro fs fs' limit offset hsh
    simp only [buildFilterQuery, filterWhere]
    rw [filterFold_fst fs _ [], filterFold_fst fs' _ [], hsh]
  · intro fs h
    simp only [filterWhere]
    rw [filterFold_fst fs _ [], filterFold_snd fs _ [], cq_append,
      cq_textOfShapes fs h]
    have hb : cQ "SELECT * FROM data WHERE 1=1" = 0 := by decide
    simp [hb]
  · intro fs limit offset
    simp only [buildFilterQuery, filterWhere]
    rw [filterFold_snd fs _ []]
    rfl
  · intro p
    simp only [buildAggregationQuery, aggWhere]
    rw [aggFold_snd p.filters [] []]
    rfl
  · intro p p' col fs hne
    unfold percentileQuery
    intro heq
    have hd := congrArg String.data heq
    simp only [String.data_append, List.append_assoc] at hd
    have h1 := List.append_cancel_left hd
    have h2 := List.append_cancel_right h1
    exact hne (String.ext h2)
  · intro p p' col fs
    rfl
  · intro fs
    simp only [buildFilterQuery]
    norm_num
    intro heq
    have hd := congrArg String.data heq
    simp only [String.data_append, List.append_assoc] at hd
    have h1 := List.append_cancel_left hd
    have h2 := List.append_cancel_left h1
    have h3 : toString (10 : Int) = toString (20 : Int) := String.ext h2
    exact absurd h3 (by decide)

/-- Witness for the amended C3 at concrete inputs: two different scalar
filter values produce the identical query text; a one-entry filter yields
one placeholder and one arg; and the 0.25 vs 0.5 percentile queries differ
in text only. -/
theorem query_parameterization_amended_witness :
    (buildFilterQuery [("estado", .vstr "Jalisco")] 0 0).1
      = (buildFilterQuery [("estado", .vstr "Colima")] 0 0).1
    ∧ cQ (filterWhere [("estado", .vstr "Jalisco")]).1
        = ((filterWhere [("estado", .vstr "Jalisco")]).2).length
    ∧ (percentileQuery (mkRat 1 2) "monto" []).1 ≠ (percentileQuery (mkRat 1 4) "monto" []).1
    ∧ (percentileQuery (mkRat 1 2) "monto" []).2 = (percentileQuery (mkRat 1 4) "monto" []).2 := by
  refine ⟨?_, ?_, ?_, ?_⟩
  · exact query_parameterization_amended.1 [("estado", .vstr "Jalisco")]
      [("estado", .vstr "Colima")] 0 0 (by decide)
  · exact query_parameterization_amended.2.1 [("estado", .vstr "Jalisco")] (by decide)
  · exact query_parameterization_amended.2.2.2.2.1 (mkRat 1 2) (mkRat 1 4) "monto" []
      (by decide)
  · exact query_parameterization_amended.2.2.2.2.2.1 (mkRat 1 2) (mkRat 1 4) "monto" []

end Visor
